import Mathlib

/-!
Shallow embedding of `cache.go` from rohitsubedi/go-cache.

The cache facade dispatches every operation over a backend kind
(`memory`, `file`, `redis`, `memcache`).  Time is passed explicitly as
an integer (`UnixNano`); the value codec (`json.MarshalIndent`) is
abstracted as an already-computed `Option Bytes` encoding result
(`none` models a serialization failure).  The filesystem directory of
the file backend is modelled as an association list from key to file
entry (content plus modification time), and the remote KV stores are
modelled from the spec (they are external collaborators whose code is
not in the repository).
-/

namespace GoCache

/-- Opaque payload bytes produced by the value codec. -/
abbrev Bytes := List Nat

/-- The four backend kinds (`cacheTypeDefault`/File/Redis/Memcache). -/
inductive CacheType
  | memory
  | file
  | redis
  | memcache
deriving DecidableEq, Repr

/-- The error values of the package (`ErrCacheNotFound`, …). -/
inductive CacheError
  | notFound
  | expired
  | alreadyExists
  | encodingError
  | creatingFile
deriving DecidableEq, Repr

/-- `cacheItem`: payload bytes plus an absolute expiry `UnixNano`
timestamp, `0` meaning "never expires". -/
structure CacheItem where
  value : Bytes
  expiration : Int
deriving DecidableEq, Repr

/-- A file of the file backend: its content and its modification time
(`UnixNano`), which stands in for the write instant. -/
structure FileEntry where
  content : Bytes
  modTime : Int
deriving DecidableEq, Repr

/-- An entry of the remote KV store: payload plus the store-native
absolute expiry point, `0` meaning persistent. -/
structure RemoteItem where
  value : Bytes
  expireAt : Int
deriving DecidableEq, Repr

/-! ### Finite maps as association lists -/

/-- Lookup in an association list (Go map read `m[k]`). -/
def mapGet {α : Type} (m : List (String × α)) (k : String) : Option α :=
  match m with
  | [] => none
  | (k', v) :: rest => if k' = k then some v else mapGet rest k

/-- Removal (Go `delete(m, k)` / `os.Remove`). -/
def mapDel {α : Type} (m : List (String × α)) (k : String) : List (String × α) :=
  m.filter (fun p => p.1 ≠ k)

/-- Insert-or-overwrite (Go map write `m[k] = v`). -/
def mapSet {α : Type} (m : List (String × α)) (k : String) (v : α) : List (String × α) :=
  (k, v) :: mapDel m k

/-- Insert a name into a set of names (Go `set[k] = struct{}{}`). -/
def insertName (l : List String) (k : String) : List String :=
  if k ∈ l then l else k :: l

/-! ### The cache state

`cleaner` records whether the `cacheCleaner` field is non-nil.  The
`filePath` directory prefix is carried but the file map is keyed by the
cache key directly (every path in the source is `filePath + "/" + key`).
A single `remote` store stands for whichever of `redisClient` /
`memCacheClient` the backend kind selects. -/
structure CacheState where
  cacheType : CacheType
  expiration : Int
  items : List (String × CacheItem)
  filePath : String
  fileSys : List (String × FileEntry)
  cacheFiles : List String
  remote : List (String × RemoteItem)
  cleaner : Bool
deriving DecidableEq, Repr

/-- `defaultExpiration = 0 * time.Second`. -/
def defaultExpiration : Int := 0

/-! ### Remote KV store primitives

Modelled from the spec: the remote stores (redis / memcache client
libraries) are external collaborators; per §4.2 and §6, a write passes
the TTL parameter to the store, a non-positive TTL "the store
interprets as persistent", and the store judges staleness natively. -/

/-- Modelled from the spec: store-side write with TTL parameter; a
non-positive TTL records no expiry point (persistent). -/
def remoteSet (m : List (String × RemoteItem)) (k : String) (v : Bytes)
    (ttl now : Int) : List (String × RemoteItem) :=
  mapSet m k ⟨v, if 0 < ttl then now + ttl else 0⟩

/-- Modelled from the spec: store-side read; a miss (absent or
store-expired) yields `none`, which the facade cannot distinguish. -/
def remoteGet (m : List (String × RemoteItem)) (k : String) (now : Int) :
    Option Bytes :=
  match mapGet m k with
  | none => none
  | some it => if 0 < it.expireAt ∧ it.expireAt < now then none else some it.value

/-! ### Constructors -/

/-- `NewDefaultCache`: clamps a non-positive TTL to `defaultExpiration`;
creates the cleaner exactly when the TTL is positive. -/
def NewDefaultCache (expiration : Int) : CacheState :=
  { cacheType := .memory
    expiration := if expiration ≤ defaultExpiration then defaultExpiration else expiration
    items := []
    filePath := ""
    fileSys := []
    cacheFiles := []
    remote := []
    cleaner := decide (defaultExpiration < expiration) }

/-- `NewFileCache`: same TTL clamp and cleaner rule as `NewDefaultCache`,
with a directory path for the cache files. -/
def NewFileCache (expiration : Int) (path : String) : CacheState :=
  { cacheType := .file
    expiration := if expiration ≤ defaultExpiration then defaultExpiration else expiration
    items := []
    filePath := path
    fileSys := []
    cacheFiles := []
    remote := []
    cleaner := decide (defaultExpiration < expiration) }

/-- `NewRedisCache` (successful connection path): clamps the TTL, never
creates a cleaner.  Host/password and the `Ping` probe are connection
set-up only and carry no cache semantics. -/
def NewRedisCache (expiration : Int) : CacheState :=
  { cacheType := .redis
    expiration := if expiration ≤ defaultExpiration then defaultExpiration else expiration
    items := []
    filePath := ""
    fileSys := []
    cacheFiles := []
    remote := []
    cleaner := false }

/-- `NewMemCache` (successful connection path): clamps the TTL, never
creates a cleaner. -/
def NewMemCache (expiration : Int) : CacheState :=
  { cacheType := .memcache
    expiration := if expiration ≤ defaultExpiration then defaultExpiration else expiration
    items := []
    filePath := ""
    fileSys := []
    cacheFiles := []
    remote := []
    cleaner := false }

/-! ### Operations -/

/-- `has` (the unexported existence check): true iff an entry exists and
is not stale; as a side effect removes a discovered-stale entry on the
two local backends. -/
def hasAux (c : CacheState) (now : Int) (key : String) : CacheState × Bool :=
  match c.cacheType with
  | .memory =>
    match mapGet c.items key with
    | none => (c, false)
    | some item =>
      if 0 < item.expiration ∧ item.expiration < now then
        ({ c with items := mapDel c.items key }, false)
      else
        (c, true)
  | .file =>
    match mapGet c.fileSys key with
    | none => (c, false)
    | some fi =>
      if 0 < c.expiration ∧ c.expiration + fi.modTime < now then
        ({ c with fileSys := mapDel c.fileSys key }, false)
      else
        (c, true)
  | .redis =>
    match remoteGet c.remote key now with
    | none => (c, false)
    | some _ => (c, true)
  | .memcache =>
    match remoteGet c.remote key now with
    | none => (c, false)
    | some _ => (c, true)

/-- `Has`: public wrapper of `has` (locking elided). -/
def Has (c : CacheState) (now : Int) (key : String) : CacheState × Bool :=
  hasAux c now key

/-- `set` (the unexported write): `encoded` is the result of the value
codec (`none` = serialization failure, returned unchanged); a positive
configured TTL records `now + TTL` as the absolute expiry.  The file
backend writes the payload with the current instant as modification
time and records the key among the known cache files; the remote
backends pass the TTL parameter to the store. -/
def set (c : CacheState) (now : Int) (key : String) (encoded : Option Bytes) :
    CacheState × Option CacheError :=
  match encoded with
  | none => (c, some .encodingError)
  | some val =>
    let expiration : Int := if defaultExpiration < c.expiration then now + c.expiration else 0
    match c.cacheType with
    | .memory =>
      ({ c with items := mapSet c.items key ⟨val, expiration⟩ }, none)
    | .file =>
      ({ c with fileSys := mapSet c.fileSys key ⟨val, now⟩,
                cacheFiles := insertName c.cacheFiles key }, none)
    | .redis =>
      ({ c with remote := remoteSet c.remote key val c.expiration now }, none)
    | .memcache =>
      ({ c with remote := remoteSet c.remote key val c.expiration now }, none)

/-- `Set`: public wrapper of `set` (locking elided). -/
def Set (c : CacheState) (now : Int) (key : String) (encoded : Option Bytes) :
    CacheState × Option CacheError :=
  set c now key encoded

/-- `Add`: fails with `alreadyExists` when `has` holds; otherwise writes
like `Set`. -/
def Add (c : CacheState) (now : Int) (key : String) (encoded : Option Bytes) :
    CacheState × Option CacheError :=
  let h := hasAux c now key
  if h.2 then (h.1, some .alreadyExists) else set h.1 now key encoded

/-- `getDefaultCache`: memory-backend read; deletes a stale entry and
reports `expired`; deletes on success when `removeCurrent`. -/
def getDefaultCache (c : CacheState) (now : Int) (key : String)
    (removeCurrent : Bool) : CacheState × Except CacheError Bytes :=
  match mapGet c.items key with
  | none => (c, .error .notFound)
  | some item =>
    if 0 < item.expiration ∧ item.expiration < now then
      ({ c with items := mapDel c.items key }, .error .expired)
    else if removeCurrent then
      ({ c with items := mapDel c.items key }, .ok item.value)
    else
      (c, .ok item.value)

/-- `getFileCache`: file-backend read; stats the file, judges staleness
from `TTL + modTime`, removes a stale file and reports `expired`;
removes on success when `removeCurrent`. -/
def getFileCache (c : CacheState) (now : Int) (key : String)
    (removeCurrent : Bool) : CacheState × Except CacheError Bytes :=
  match mapGet c.fileSys key with
  | none => (c, .error .notFound)
  | some fi =>
    if 0 < c.expiration ∧ c.expiration + fi.modTime < now then
      ({ c with fileSys := mapDel c.fileSys key }, .error .expired)
    else if removeCurrent then
      ({ c with fileSys := mapDel c.fileSys key }, .ok fi.content)
    else
      (c, .ok fi.content)

/-- `getRedisCache`: any store-side miss is reported as `notFound`;
deletes on success when `removeCurrent`. -/
def getRedisCache (c : CacheState) (now : Int) (key : String)
    (removeCurrent : Bool) : CacheState × Except CacheError Bytes :=
  match remoteGet c.remote key now with
  | none => (c, .error .notFound)
  | some val =>
    if removeCurrent then
      ({ c with remote := mapDel c.remote key }, .ok val)
    else
      (c, .ok val)

/-- `getMemCache`: any store-side miss is reported as `notFound`;
deletes on success when `removeCurrent`. -/
def getMemCache (c : CacheState) (now : Int) (key : String)
    (removeCurrent : Bool) : CacheState × Except CacheError Bytes :=
  match remoteGet c.remote key now with
  | none => (c, .error .notFound)
  | some val =>
    if removeCurrent then
      ({ c with remote := mapDel c.remote key }, .ok val)
    else
      (c, .ok val)

/-- `Get`: dispatch with `removeCurrent = false`. -/
def Get (c : CacheState) (now : Int) (key : String) :
    CacheState × Except CacheError Bytes :=
  match c.cacheType with
  | .memory => getDefaultCache c now key false
  | .file => getFileCache c now key false
  | .redis => getRedisCache c now key false
  | .memcache => getMemCache c now key false

/-- `Pull`: dispatch with `removeCurrent = true`. -/
def Pull (c : CacheState) (now : Int) (key : String) :
    CacheState × Except CacheError Bytes :=
  match c.cacheType with
  | .memory => getDefaultCache c now key true
  | .file => getFileCache c now key true
  | .redis => getRedisCache c now key true
  | .memcache => getMemCache c now key true

/-- `Delete`: unconditional removal on the active backend; every
backend ignores a not-found condition, so no error is produced. -/
def Delete (c : CacheState) (key : String) : CacheState :=
  match c.cacheType with
  | .memory => { c with items := mapDel c.items key }
  | .file => { c with fileSys := mapDel c.fileSys key }
  | .redis => { c with remote := mapDel c.remote key }
  | .memcache => { c with remote := mapDel c.remote key }

/-- `Flush`: memory resets the map; file removes every known cache file
(the known-file set itself is not cleared in the source); the remote
backends issue a store-level flush-all. -/
def Flush (c : CacheState) : CacheState :=
  match c.cacheType with
  | .memory => { c with items := [] }
  | .file => { c with fileSys := c.cacheFiles.foldl (fun fs k => mapDel fs k) c.fileSys }
  | .redis => { c with remote := [] }
  | .memcache => { c with remote := [] }

/-- `cleanExpiredCache` arms the sweeper exactly when a cleaner was
constructed and the backend is not remote. -/
def sweeperArmed (c : CacheState) : Bool :=
  if c.cleaner = false then false
  else if c.cacheType = .memcache ∨ c.cacheType = .redis then false
  else true

/-- One firing of the armed sweeper: invoke the existence check on
every known key (memory: the keys of the item map; file: the known
cache files — spawned concurrently in the source, serialized here),
relying on its eviction side effect. -/
def sweepPass (c : CacheState) (now : Int) : CacheState :=
  if sweeperArmed c then
    match c.cacheType with
    | .memory => (c.items.map Prod.fst).foldl (fun s k => (hasAux s now k).1) c
    | .file => c.cacheFiles.foldl (fun s k => (hasAux s now k).1) c
    | .redis => c
    | .memcache => c
  else c

/-! ### Presence and staleness predicates

These restate the staleness tests of the source as standalone decidable
predicates, used to phrase the claims. -/

/-- Staleness of a memory item: an expiry is recorded and has passed
(strictly). -/
def staleMemAt (m : List (String × CacheItem)) (now : Int) (k : String) : Bool :=
  match mapGet m k with
  | none => false
  | some it => decide (0 < it.expiration ∧ it.expiration < now)

/-- Staleness of a cache file: a positive TTL is configured and
`TTL + modTime` has passed (strictly). -/
def staleFileAt (ttl : Int) (fs : List (String × FileEntry)) (now : Int) (k : String) : Bool :=
  match mapGet fs k with
  | none => false
  | some fi => decide (0 < ttl ∧ ttl + fi.modTime < now)

/-- Store-native staleness of a remote entry. -/
def staleRemoteAt (m : List (String × RemoteItem)) (now : Int) (k : String) : Bool :=
  match mapGet m k with
  | none => false
  | some it => decide (0 < it.expireAt ∧ it.expireAt < now)

/-- The payload currently stored for a key on the active backend
(ignoring staleness); `none` when absent. -/
def entryPayload (c : CacheState) (k : String) : Option Bytes :=
  match c.cacheType with
  | .memory => (mapGet c.items k).map CacheItem.value
  | .file => (mapGet c.fileSys k).map FileEntry.content
  | .redis => (mapGet c.remote k).map RemoteItem.value
  | .memcache => (mapGet c.remote k).map RemoteItem.value

/-- Whether the entry currently stored for a key is stale at `now`. -/
def entryStale (c : CacheState) (now : Int) (k : String) : Bool :=
  match c.cacheType with
  | .memory => staleMemAt c.items now k
  | .file => staleFileAt c.expiration c.fileSys now k
  | .redis => staleRemoteAt c.remote now k
  | .memcache => staleRemoteAt c.remote now k

/-- "An entry currently exists and is not stale". -/
def liveEntry (c : CacheState) (now : Int) (k : String) : Bool :=
  (entryPayload c k).isSome && !(entryStale c now k)

/-! ### Association-map lemmas -/

theorem mapDel_cons {α : Type} (ka : String) (va : α) (rest : List (String × α))
    (k : String) :
    mapDel ((ka, va) :: rest) k =
      if ka = k then mapDel rest k else (ka, va) :: mapDel rest k := by
  by_cases h : ka = k <;> simp [mapDel, List.filter_cons, h]

theorem mapGet_mapDel {α : Type} (m : List (String × α)) (k k' : String) :
    mapGet (mapDel m k) k' = if k = k' then none else mapGet m k' := by
  induction m with
  | nil => simp [mapGet, mapDel]
  | cons a rest ih =>
    obtain ⟨ka, va⟩ := a
    rw [mapDel_cons]
    by_cases h1 : ka = k
    · subst h1
      rw [if_pos rfl, ih]
      by_cases h2 : ka = k'
      · subst h2
        simp
      · simp [mapGet, h2]
    · rw [if_neg h1]
      by_cases h2 : ka = k'
      · subst h2
        have hne : ¬ k = ka := fun h => h1 h.symm
        simp [mapGet, hne]
      · simp [mapGet, h2, ih]

theorem mapGet_mapSet {α : Type} (m : List (String × α)) (k k' : String) (v : α) :
    mapGet (mapSet m k v) k' = if k = k' then some v else mapGet m k' := by
  show (if k = k' then some v else mapGet (mapDel m k) k') = _
  rw [mapGet_mapDel]
  by_cases h : k = k' <;> simp [h]

theorem mapDel_mapDel {α : Type} (m : List (String × α)) (k : String) :
    mapDel (mapDel m k) k = mapDel m k := by
  simp [mapDel, List.filter_filter]

theorem mapDel_mapSet {α : Type} (m : List (String × α)) (k : String) (v : α) :
    mapDel (mapSet m k v) k = mapDel m k := by
  show mapDel ((k, v) :: mapDel m k) k = mapDel m k
  rw [mapDel_cons, if_pos rfl, mapDel_mapDel]

theorem mapSet_mapDel {α : Type} (m : List (String × α)) (k : String) (v : α) :
    mapSet (mapDel m k) k v = mapSet m k v := by
  show (k, v) :: mapDel (mapDel m k) k = (k, v) :: mapDel m k
  rw [mapDel_mapDel]

theorem mapDel_of_mapGet_none {α : Type} (m : List (String × α)) (k : String)
    (h : mapGet m k = none) : mapDel m k = m := by
  induction m with
  | nil => rfl
  | cons a rest ih =>
    obtain ⟨ka, va⟩ := a
    by_cases h1 : ka = k
    · simp [mapGet, h1] at h
    · simp only [mapGet, if_neg h1] at h
      rw [mapDel_cons, if_neg h1, ih h]

theorem mapGet_foldl_mapDel {α : Type} (ks : List String) (m : List (String × α))
    (k : String) :
    mapGet (ks.foldl (fun fs j => mapDel fs j) m) k =
      if k ∈ ks then none else mapGet m k := by
  induction ks generalizing m with
  | nil => simp
  | cons a ks ih =>
    rw [List.foldl_cons, ih]
    by_cases h1 : k ∈ ks
    · simp [h1]
    · by_cases h2 : a = k
      · subst h2
        simp [mapGet_mapDel, h1]
      · have hk : ¬ k = a := fun h => h2 h.symm
        simp [mapGet_mapDel, h1, h2, hk]

theorem mapGet_some_mem_keys {α : Type} (m : List (String × α)) (k : String) (v : α)
    (h : mapGet m k = some v) : k ∈ m.map Prod.fst := by
  induction m with
  | nil => simp [mapGet] at h
  | cons a rest ih =>
    obtain ⟨ka, va⟩ := a
    by_cases h1 : ka = k
    · simp [h1]
    · simp only [mapGet, if_neg h1] at h
      simp [ih h]

/-! ### Characterization of the existence check -/

theorem hasAux_snd (c : CacheState) (now : Int) (k : String) :
    (hasAux c now k).2 = liveEntry c now k := by
  obtain ⟨ty, exp, items, fp, fs, cf, rem, cl⟩ := c
  cases ty
  case memory =>
    simp only [hasAux, liveEntry, entryPayload, entryStale, staleMemAt]
    cases hget : mapGet items k
    · simp
    · rename_i it
      by_cases hc : 0 < it.expiration ∧ it.expiration < now <;> simp [hc]
  case file =>
    simp only [hasAux, liveEntry, entryPayload, entryStale, staleFileAt]
    cases hget : mapGet fs k
    · simp
    · rename_i fi
      by_cases hc : 0 < exp ∧ exp + fi.modTime < now <;> simp [hc]
  case redis =>
    simp only [hasAux, liveEntry, entryPayload, entryStale, staleRemoteAt, remoteGet]
    cases hget : mapGet rem k
    · simp
    · rename_i it
      by_cases hc : 0 < it.expireAt ∧ it.expireAt < now <;> simp [hc]
  case memcache =>
    simp only [hasAux, liveEntry, entryPayload, entryStale, staleRemoteAt, remoteGet]
    cases hget : mapGet rem k
    · simp
    · rename_i it
      by_cases hc : 0 < it.expireAt ∧ it.expireAt < now <;> simp [hc]

theorem hasAux_of_true (c : CacheState) (now : Int) (k : String)
    (h : (hasAux c now k).2 = true) : (hasAux c now k).1 = c := by
  obtain ⟨ty, exp, items, fp, fs, cf, rem, cl⟩ := c
  cases ty
  case memory =>
    simp only [hasAux] at *
    cases hget : mapGet items k
    · simp [hget]
    · rename_i it
      simp only [hget] at h ⊢
      by_cases hc : 0 < it.expiration ∧ it.expiration < now
      · simp [hc] at h
      · simp [hc]
  case file =>
    simp only [hasAux] at *
    cases hget : mapGet fs k
    · simp [hget]
    · rename_i fi
      simp only [hget] at h ⊢
      by_cases hc : 0 < exp ∧ exp + fi.modTime < now
      · simp [hc] at h
      · simp [hc]
  case redis =>
    simp only [hasAux] at *
    cases hget : remoteGet rem k now <;> simp [hget]
  case memcache =>
    simp only [hasAux] at *
    cases hget : remoteGet rem k now <;> simp [hget]

theorem set_snd_of_some (c : CacheState) (now : Int) (k : String) (v : Bytes) :
    (set c now k (some v)).2 = none := by
  obtain ⟨ty, exp, items, fp, fs, cf, rem, cl⟩ := c
  cases ty <;> simp [set]

theorem set_hasAux_fst (c : CacheState) (now t : Int) (k : String) (v : Bytes) :
    set (hasAux c t k).1 now k (some v) = set c now k (some v) := by
  obtain ⟨ty, exp, items, fp, fs, cf, rem, cl⟩ := c
  cases ty
  case memory =>
    simp only [hasAux]
    cases hget : mapGet items k
    · rfl
    · rename_i it
      by_cases hc : 0 < it.expiration ∧ it.expiration < t
      · simp [hc, set, mapSet_mapDel]
      · simp [hc]
  case file =>
    simp only [hasAux]
    cases hget : mapGet fs k
    · rfl
    · rename_i fi
      by_cases hc : 0 < exp ∧ exp + fi.modTime < t
      · simp [hc, set, mapSet_mapDel]
      · simp [hc]
  case redis =>
    simp only [hasAux]
    cases hget : remoteGet rem k t <;> simp [hget]
  case memcache =>
    simp only [hasAux]
    cases hget : remoteGet rem k t <;> simp [hget]

/-! ### Claims -/

/-- C1: for every key `k` and every serializable value (its codec
output being `v`), `Set(k, v)` followed by `Get(k)` before the entry's
expiry returns exactly the stored byte encoding, unmodified, on every
backend. -/
theorem C1_set_get_roundtrip (c : CacheState) (t0 t : Int) (k : String) (v : Bytes)
    (hfresh : 0 < c.expiration → t ≤ t0 + c.expiration) :
    (Get (Set c t0 k (some v)).1 t k).2 = Except.ok v := by
  obtain ⟨ty, exp, items, fp, fs, cf, rem, cl⟩ := c
  simp only at hfresh
  cases ty
  case memory =>
    by_cases he : 0 < exp
    · have ht := hfresh he
      have hcond : ¬(0 < t0 + exp ∧ t0 + exp < t) := by omega
      simp [Set, set, Get, getDefaultCache, mapGet_mapSet, defaultExpiration, he, hcond]
    · simp [Set, set, Get, getDefaultCache, mapGet_mapSet, defaultExpiration, he]
  case file =>
    by_cases he : 0 < exp
    · have ht := hfresh he
      have hcond : ¬(exp + t0 < t) := by omega
      simp [Set, set, Get, getFileCache, mapGet_mapSet, defaultExpiration, he, hcond]
    · simp [Set, set, Get, getFileCache, mapGet_mapSet, defaultExpiration, he]
  case redis =>
    by_cases he : 0 < exp
    · have ht := hfresh he
      have hcond : ¬(0 < t0 + exp ∧ t0 + exp < t) := by omega
      simp [Set, set, Get, getRedisCache, remoteSet, remoteGet, mapGet_mapSet, he, hcond]
    · simp [Set, set, Get, getRedisCache, remoteSet, remoteGet, mapGet_mapSet, he]
  case memcache =>
    by_cases he : 0 < exp
    · have ht := hfresh he
      have hcond : ¬(0 < t0 + exp ∧ t0 + exp < t) := by omega
      simp [Set, set, Get, getMemCache, remoteSet, remoteGet, mapGet_mapSet, he, hcond]
    · simp [Set, set, Get, getMemCache, remoteSet, remoteGet, mapGet_mapSet, he]

theorem C1_witness :
    (Get (Set (NewDefaultCache 5) 100 "k" (some [1, 2])).1 103 "k").2 =
      Except.ok [1, 2] :=
  C1_set_get_roundtrip (NewDefaultCache 5) 100 103 "k" [1, 2] (by decide)

/-- C2: `Add(k, v)` (for a serializable value) fails with
`alreadyExists` exactly when a live (present and not stale) entry for
`k` exists; on that failure the whole state — in particular the stored
entry for `k` — is unchanged; otherwise `Add` behaves identically to
`Set`. -/
theorem C2_add_spec (c : CacheState) (now : Int) (k : String) (v : Bytes) :
    ((Add c now k (some v)).2 = some CacheError.alreadyExists ↔ liveEntry c now k = true)
    ∧ (liveEntry c now k = true → Add c now k (some v) = (c, some CacheError.alreadyExists))
    ∧ (liveEntry c now k = false → Add c now k (some v) = Set c now k (some v)) := by
  by_cases hl : liveEntry c now k = true
  · have h2 : (hasAux c now k).2 = true := by rw [hasAux_snd]; exact hl
    have h1 := hasAux_of_true c now k h2
    refine ⟨?_, fun _ => ?_, fun hfalse => ?_⟩
    · simp [Add, h2, hl]
    · simp [Add, h2, h1]
    · rw [hl] at hfalse
      exact absurd hfalse (by simp)
  · have hl0 : liveEntry c now k = false := by
      cases h : liveEntry c now k
      · rfl
      · exact absurd h hl
    have h2 : (hasAux c now k).2 = false := by rw [hasAux_snd]; exact hl0
    refine ⟨?_, fun htrue => absurd htrue hl, fun _ => ?_⟩
    · rw [iff_false_intro (by simp [hl0] : ¬ liveEntry c now k = true)]
      simp [Add, h2, set_hasAux_fst, set_snd_of_some]
    · simp [Add, h2, set_hasAux_fst, Set]

theorem C2_witness :
    (Add (Set (NewDefaultCache 0) 5 "k" (some [7])).1 9 "k" (some [8]) =
      ((Set (NewDefaultCache 0) 5 "k" (some [7])).1, some CacheError.alreadyExists))
    ∧ (Add (NewDefaultCache 0) 9 "q" (some [8]) = Set (NewDefaultCache 0) 9 "q" (some [8])) :=
  ⟨(C2_add_spec (Set (NewDefaultCache 0) 5 "k" (some [7])).1 9 "k" [8]).2.1 (by decide),
   (C2_add_spec (NewDefaultCache 0) 9 "q" [8]).2.2 (by decide)⟩

/-- `Pull` and `Get` return the same result value on every state: the
`removeCurrent` flag affects only the resulting state. -/
theorem pull_snd_eq_get_snd (d : CacheState) (t : Int) (k : String) :
    (Pull d t k).2 = (Get d t k).2 := by
  obtain ⟨ty, exp, items, fp, fs, cf, rem, cl⟩ := d
  cases ty
  case memory =>
    simp only [Pull, Get, getDefaultCache]
    cases hget : mapGet items k
    · rfl
    · rename_i it
      by_cases hc : 0 < it.expiration ∧ it.expiration < t <;> simp [hc]
  case file =>
    simp only [Pull, Get, getFileCache]
    cases hget : mapGet fs k
    · rfl
    · rename_i fi
      by_cases hc : 0 < exp ∧ exp + fi.modTime < t <;> simp [hc]
  case redis =>
    simp only [Pull, Get, getRedisCache]
    cases hget : remoteGet rem k t <;> simp [hget]
  case memcache =>
    simp only [Pull, Get, getMemCache]
    cases hget : remoteGet rem k t <;> simp [hget]

/-- C3: on the two local backends, `Get(k)` returns the stored payload
and leaves the state untouched when an entry is present and not stale,
fails with `notFound` when absent, and fails with `expired` when
present but past expiry — in which case the stale entry is removed
within the same operation. -/
theorem C3_get_spec (c : CacheState) (now : Int) (k : String)
    (hloc : c.cacheType = CacheType.memory ∨ c.cacheType = CacheType.file) :
    (entryPayload c k = none → Get c now k = (c, Except.error CacheError.notFound))
    ∧ (∀ p, entryPayload c k = some p → entryStale c now k = false →
        Get c now k = (c, Except.ok p))
    ∧ (entryPayload c k ≠ none → entryStale c now k = true →
        (Get c now k).2 = Except.error CacheError.expired
        ∧ entryPayload (Get c now k).1 k = none) := by
  obtain ⟨ty, exp, items, fp, fs, cf, rem, cl⟩ := c
  simp only at hloc
  rcases hloc with h | h <;> subst h
  · cases hget : mapGet items k
    · refine ⟨fun _ => ?_, fun p hp _ => ?_, fun hne _ => ?_⟩
      · simp [Get, getDefaultCache, hget]
      · simp [entryPayload, hget] at hp
      · simp [entryPayload, hget] at hne
    · rename_i it
      by_cases hc : 0 < it.expiration ∧ it.expiration < now
      · refine ⟨fun hnone => ?_, fun p hp hst => ?_, fun _ _ => ⟨?_, ?_⟩⟩
        · simp [entryPayload, hget] at hnone
        · simp [entryStale, staleMemAt, hget, hc] at hst
        · simp [Get, getDefaultCache, hget, hc]
        · simp [Get, getDefaultCache, hget, hc, entryPayload, mapGet_mapDel]
      · refine ⟨fun hnone => ?_, fun p hp hst => ?_, fun hne hst => ?_⟩
        · simp [entryPayload, hget] at hnone
        · have hpv : p = it.value := by
            simp [entryPayload, hget] at hp
            exact hp.symm
          subst hpv
          simp [Get, getDefaultCache, hget, hc]
        · simp [entryStale, staleMemAt, hget, hc] at hst
  · cases hget : mapGet fs k
    · refine ⟨fun _ => ?_, fun p hp _ => ?_, fun hne _ => ?_⟩
      · simp [Get, getFileCache, hget]
      · simp [entryPayload, hget] at hp
      · simp [entryPayload, hget] at hne
    · rename_i fi
      by_cases hc : 0 < exp ∧ exp + fi.modTime < now
      · refine ⟨fun hnone => ?_, fun p hp hst => ?_, fun _ _ => ⟨?_, ?_⟩⟩
        · simp [entryPayload, hget] at hnone
        · simp [entryStale, staleFileAt, hget, hc] at hst
        · simp [Get, getFileCache, hget, hc]
        · simp [Get, getFileCache, hget, hc, entryPayload, mapGet_mapDel]
      · refine ⟨fun hnone => ?_, fun p hp hst => ?_, fun hne hst => ?_⟩
        · simp [entryPayload, hget] at hnone
        · have hpv : p = fi.content := by
            simp [entryPayload, hget] at hp
            exact hp.symm
          subst hpv
          simp [Get, getFileCache, hget, hc]
        · simp [entryStale, staleFileAt, hget, hc] at hst

theorem C3_witness :
    (Get (Set (NewDefaultCache 5) 1 "k" (some [3])).1 10 "k").2 =
        Except.error CacheError.expired
    ∧ entryPayload (Get (Set (NewDefaultCache 5) 1 "k" (some [3])).1 10 "k").1 "k" =
        none :=
  (C3_get_spec (Set (NewDefaultCache 5) 1 "k" (some [3])).1 10 "k"
      (Or.inl rfl)).2.2 (by decide) (by decide)

/-- C4: with a positive configured TTL, a write at `t0` records the
absolute expiry `t0 + TTL` (memory) or the write instant `t0` as the
file modification time (file); staleness at `t` holds exactly when
`t0 + TTL < t` (strict — equality is not yet expired), so `Has` is true
throughout `[t0, t0 + TTL]` and `Get` fails with `expired` beyond it.
`0 ≤ t0` reflects that write instants are `UnixNano` timestamps. -/
theorem C4_ttl_window (c : CacheState) (t0 t : Int) (k : String) (v : Bytes)
    (hloc : c.cacheType = CacheType.memory ∨ c.cacheType = CacheType.file)
    (hT : 0 < c.expiration) (ht0 : 0 ≤ t0) :
    (c.cacheType = CacheType.memory →
        mapGet (Set c t0 k (some v)).1.items k =
          some { value := v, expiration := t0 + c.expiration })
    ∧ (c.cacheType = CacheType.file →
        mapGet (Set c t0 k (some v)).1.fileSys k = some { content := v, modTime := t0 })
    ∧ entryStale (Set c t0 k (some v)).1 t k = decide (t0 + c.expiration < t)
    ∧ (t0 ≤ t → t ≤ t0 + c.expiration → (Has (Set c t0 k (some v)).1 t k).2 = true)
    ∧ (t0 + c.expiration < t →
        (Get (Set c t0 k (some v)).1 t k).2 = Except.error CacheError.expired) := by
  obtain ⟨ty, exp, items, fp, fs, cf, rem, cl⟩ := c
  simp only at hloc hT ⊢
  have hpos : 0 < t0 + exp := by omega
  rcases hloc with h | h <;> subst h
  · refine ⟨fun _ => ?_, fun hf => by simp at hf, ?_, fun h1 h2 => ?_, fun hlt => ?_⟩
    · simp [Set, set, mapGet_mapSet, defaultExpiration, hT]
    · by_cases hlt : t0 + exp < t <;>
        simp [entryStale, staleMemAt, Set, set, mapGet_mapSet, defaultExpiration,
          hT, hpos, hlt]
    · have hcond : ¬(0 < t0 + exp ∧ t0 + exp < t) := by omega
      simp [Has, hasAux, Set, set, mapGet_mapSet, defaultExpiration, hT, hcond]
    · have hcond : 0 < t0 + exp ∧ t0 + exp < t := ⟨hpos, hlt⟩
      simp [Get, getDefaultCache, Set, set, mapGet_mapSet, defaultExpiration, hT, hcond]
  · refine ⟨fun hf => by simp at hf, fun _ => ?_, ?_, fun h1 h2 => ?_, fun hlt => ?_⟩
    · simp [Set, set, mapGet_mapSet, defaultExpiration, hT]
    · by_cases hlt : t0 + exp < t
      · have h2 : exp + t0 < t := by omega
        simp [entryStale, staleFileAt, Set, set, mapGet_mapSet, defaultExpiration,
          hT, h2, hlt]
      · have h2 : ¬(exp + t0 < t) := by omega
        simp [entryStale, staleFileAt, Set, set, mapGet_mapSet, defaultExpiration,
          hT, h2, hlt]
    · have hcond : ¬(exp + t0 < t) := by omega
      simp [Has, hasAux, Set, set, mapGet_mapSet, defaultExpiration, hT, hcond]
    · have hcond : exp + t0 < t := by omega
      simp [Get, getFileCache, Set, set, mapGet_mapSet, defaultExpiration, hT, hcond]

theorem C4_witness :
    (Has (Set (NewDefaultCache 5) 10 "k" (some [1])).1 15 "k").2 = true
    ∧ (Get (Set (NewDefaultCache 5) 10 "k" (some [1])).1 16 "k").2 =
        Except.error CacheError.expired :=
  ⟨(C4_ttl_window (NewDefaultCache 5) 10 15 "k" [1] (Or.inl rfl) (by decide)
      (by decide)).2.2.2.1 (by decide) (by decide),
   (C4_ttl_window (NewDefaultCache 5) 10 16 "k" [1] (Or.inl rfl) (by decide)
      (by decide)).2.2.2.2 (by decide)⟩

/-- C5: with a non-positive configured TTL no expiry timestamp is
recorded (memory entry and remote store entry both carry `0`, the
remote store treating the absent TTL as persistent), so `Set` followed
by `Get` at an arbitrarily later instant still returns the payload on
every backend. -/
theorem C5_never_expires (c : CacheState) (t0 t : Int) (k : String) (v : Bytes)
    (h : c.expiration ≤ 0) :
    (Get (Set c t0 k (some v)).1 t k).2 = Except.ok v
    ∧ (c.cacheType = CacheType.memory →
        mapGet (Set c t0 k (some v)).1.items k = some { value := v, expiration := 0 })
    ∧ ((c.cacheType = CacheType.redis ∨ c.cacheType = CacheType.memcache) →
        mapGet (Set c t0 k (some v)).1.remote k = some { value := v, expireAt := 0 }) := by
  obtain ⟨ty, exp, items, fp, fs, cf, rem, cl⟩ := c
  simp only at h ⊢
  have he : ¬ (0 < exp) := by omega
  cases ty
  case memory =>
    refine ⟨?_, fun _ => ?_, fun hr => by simp at hr⟩
    · simp [Set, set, Get, getDefaultCache, mapGet_mapSet, defaultExpiration, he]
    · simp [Set, set, mapGet_mapSet, defaultExpiration, he]
  case file =>
    refine ⟨?_, fun hm => by simp at hm, fun hr => by simp at hr⟩
    simp [Set, set, Get, getFileCache, mapGet_mapSet, defaultExpiration, he]
  case redis =>
    refine ⟨?_, fun hm => by simp at hm, fun _ => ?_⟩
    · simp [Set, set, Get, getRedisCache, remoteSet, remoteGet, mapGet_mapSet, he]
    · simp [Set, set, remoteSet, mapGet_mapSet, he]
  case memcache =>
    refine ⟨?_, fun hm => by simp at hm, fun _ => ?_⟩
    · simp [Set, set, Get, getMemCache, remoteSet, remoteGet, mapGet_mapSet, he]
    · simp [Set, set, remoteSet, mapGet_mapSet, he]

theorem C5_witness :
    (Get (Set (NewDefaultCache 0) 5 "k" (some [9])).1 999999999999 "k").2 =
        Except.ok [9]
    ∧ mapGet (Set (NewRedisCache 0) 5 "k" (some [9])).1.remote "k" =
        some { value := [9], expireAt := 0 } :=
  ⟨(C5_never_expires (NewDefaultCache 0) 5 999999999999 "k" [9] (by decide)).1,
   (C5_never_expires (NewRedisCache 0) 5 999999999999 "k" [9] (by decide)).2.2
      (Or.inl rfl)⟩

/-- C6: `Pull(k)` after `Set(k, v)` and before expiry returns the
stored encoding and removes the entry, so `Has(k)` is false afterwards
(at any instant) and a second `Pull(k)` fails with `notFound`; and on
every state `Pull` returns exactly the result value `Get` would,
so its failure modes are identical to those of `Get`. -/
theorem C6_pull_spec (c : CacheState) (t0 t t2 : Int) (k : String) (v : Bytes)
    (hfresh : 0 < c.expiration → t ≤ t0 + c.expiration) :
    (Pull (Set c t0 k (some v)).1 t k).2 = Except.ok v
    ∧ (Has (Pull (Set c t0 k (some v)).1 t k).1 t2 k).2 = false
    ∧ (Pull (Pull (Set c t0 k (some v)).1 t k).1 t2 k).2 =
        Except.error CacheError.notFound
    ∧ (∀ (d : CacheState) (t3 : Int), (Pull d t3 k).2 = (Get d t3 k).2) := by
  obtain ⟨ty, exp, items, fp, fs, cf, rem, cl⟩ := c
  simp only at hfresh
  refine ⟨?_, ?_, ?_, fun d t3 => pull_snd_eq_get_snd d t3 k⟩ <;> cases ty <;>
    by_cases he : 0 < exp
  all_goals
    first
    | (have ht := hfresh he
       have hcond : ¬(0 < t0 + exp ∧ t0 + exp < t) := by omega
       have hcondf : ¬(exp + t0 < t) := by omega
       simp [Set, set, Pull, Has, hasAux, getDefaultCache, getFileCache, getRedisCache,
         getMemCache, remoteSet, remoteGet, mapGet_mapSet, mapDel_mapSet, mapGet_mapDel,
         defaultExpiration, hcond, hcondf, he])
    | simp [Set, set, Pull, Has, hasAux, getDefaultCache, getFileCache, getRedisCache,
        getMemCache, remoteSet, remoteGet, mapGet_mapSet, mapDel_mapSet, mapGet_mapDel,
        defaultExpiration, he]

theorem C6_witness :
    (Pull (Set (NewDefaultCache 5) 10 "k" (some [4])).1 12 "k").2 = Except.ok [4]
    ∧ (Has (Pull (Set (NewDefaultCache 5) 10 "k" (some [4])).1 12 "k").1 13 "k").2 =
        false :=
  ⟨(C6_pull_spec (NewDefaultCache 5) 10 12 13 "k" [4] (by decide)).1,
   (C6_pull_spec (NewDefaultCache 5) 10 12 13 "k" [4] (by decide)).2.1⟩

theorem foldl_mapDel_of_absent {α : Type} (ks : List String) (m : List (String × α))
    (h : ∀ j ∈ ks, mapGet m j = none) :
    ks.foldl (fun fs j => mapDel fs j) m = m := by
  induction ks generalizing m with
  | nil => rfl
  | cons a ks ih =>
    rw [List.foldl_cons, mapDel_of_mapGet_none m a (h a (by simp))]
    exact ih m (fun j hj => h j (by simp [hj]))

theorem mem_insertName_self (l : List String) (k : String) : k ∈ insertName l k := by
  by_cases h : k ∈ l <;> simp [insertName, h]

/-- C7: `Flush` empties the active backend — afterwards `Has` is false
for every key on the non-file backends, and for every known cache file
on the file backend (every key written through `Set` is recorded
there); `Flush` is idempotent and, like `Delete`, produces no error
(both ignore not-found conditions by construction); `Delete` of an
absent key leaves the state unchanged. -/
theorem C7_flush_delete (c : CacheState) (t now : Int) (k : String) (v : Bytes) :
    (c.cacheType ≠ CacheType.file → (Has (Flush c) now k).2 = false)
    ∧ (c.cacheType = CacheType.file → k ∈ c.cacheFiles → (Has (Flush c) now k).2 = false)
    ∧ (c.cacheType = CacheType.file → k ∈ (Set c t k (some v)).1.cacheFiles)
    ∧ Flush (Flush c) = Flush c
    ∧ (entryPayload c k = none → Delete c k = c) := by
  obtain ⟨ty, exp, items, fp, fs, cf, rem, cl⟩ := c
  cases ty
  case memory =>
    refine ⟨fun _ => ?_, fun hf => by simp at hf, fun hf => by simp at hf, ?_,
      fun hnone => ?_⟩
    · simp [Flush, Has, hasAux, mapGet]
    · simp [Flush]
    · cases hget : mapGet items k
      · simp [Delete, mapDel_of_mapGet_none items k hget]
      · simp [entryPayload, hget] at hnone
  case file =>
    refine ⟨fun hne => by simp at hne, fun _ hmem => ?_, fun _ => ?_, ?_,
      fun hnone => ?_⟩
    · simp [Flush, Has, hasAux, mapGet_foldl_mapDel, hmem]
    · simp [Set, set, mem_insertName_self]
    · simp only [Flush]
      rw [foldl_mapDel_of_absent]
      intro j hj
      simp [mapGet_foldl_mapDel, hj]
    · cases hget : mapGet fs k
      · simp [Delete, mapDel_of_mapGet_none fs k hget]
      · simp [entryPayload, hget] at hnone
  case redis =>
    refine ⟨fun _ => ?_, fun hf => by simp at hf, fun hf => by simp at hf, ?_,
      fun hnone => ?_⟩
    · simp [Flush, Has, hasAux, remoteGet, mapGet]
    · simp [Flush]
    · cases hget : mapGet rem k
      · simp [Delete, mapDel_of_mapGet_none rem k hget]
      · simp [entryPayload, hget] at hnone
  case memcache =>
    refine ⟨fun _ => ?_, fun hf => by simp at hf, fun hf => by simp at hf, ?_,
      fun hnone => ?_⟩
    · simp [Flush, Has, hasAux, remoteGet, mapGet]
    · simp [Flush]
    · cases hget : mapGet rem k
      · simp [Delete, mapDel_of_mapGet_none rem k hget]
      · simp [entryPayload, hget] at hnone

theorem C7_witness :
    (Has (Flush (Set (NewDefaultCache 0) 1 "k" (some [1])).1) 2 "k").2 = false
    ∧ Flush (Flush (NewFileCache 5 "d")) = Flush (NewFileCache 5 "d")
    ∧ Delete (NewDefaultCache 0) "zz" = NewDefaultCache 0 :=
  ⟨(C7_flush_delete (Set (NewDefaultCache 0) 1 "k" (some [1])).1 1 2 "k" [1]).1
      (by decide),
   (C7_flush_delete (NewFileCache 5 "d") 1 2 "k" [1]).2.2.2.1,
   (C7_flush_delete (NewDefaultCache 0) 1 2 "zz" [1]).2.2.2.2 (by decide)⟩

/-! ### Sweep-pass lemmas -/

theorem hasAux_fst_memory (c : CacheState) (now : Int) (k : String)
    (hty : c.cacheType = CacheType.memory) :
    (hasAux c now k).1 =
      { c with items :=
          if staleMemAt c.items now k = true then mapDel c.items k else c.items } := by
  obtain ⟨ty, exp, items, fp, fs, cf, rem, cl⟩ := c
  simp only at hty
  subst hty
  simp only [hasAux, staleMemAt]
  cases hget : mapGet items k
  · simp
  · rename_i it
    by_cases hc : 0 < it.expiration ∧ it.expiration < now <;> simp [hc]

theorem hasAux_fst_file (c : CacheState) (now : Int) (k : String)
    (hty : c.cacheType = CacheType.file) :
    (hasAux c now k).1 =
      { c with fileSys :=
          if staleFileAt c.expiration c.fileSys now k = true then mapDel c.fileSys k
          else c.fileSys } := by
  obtain ⟨ty, exp, items, fp, fs, cf, rem, cl⟩ := c
  simp only at hty
  subst hty
  simp only [hasAux, staleFileAt]
  cases hget : mapGet fs k
  · simp
  · rename_i fi
    by_cases hc : 0 < exp ∧ exp + fi.modTime < now <;> simp [hc]

theorem staleMemAt_congr (m m2 : List (String × CacheItem)) (now : Int) (k : String)
    (h : mapGet m k = mapGet m2 k) :
    staleMemAt m now k = staleMemAt m2 now k := by
  simp only [staleMemAt, h]

theorem staleFileAt_congr (ttl : Int) (m m2 : List (String × FileEntry)) (now : Int)
    (k : String) (h : mapGet m k = mapGet m2 k) :
    staleFileAt ttl m now k = staleFileAt ttl m2 now k := by
  simp only [staleFileAt, h]

theorem hasAux_fst_preserve (c : CacheState) (now : Int) (k : String) :
    (hasAux c now k).1.cacheType = c.cacheType
    ∧ (hasAux c now k).1.cleaner = c.cleaner
    ∧ (hasAux c now k).1.expiration = c.expiration := by
  obtain ⟨ty, exp, items, fp, fs, cf, rem, cl⟩ := c
  cases ty
  case memory =>
    simp only [hasAux]
    cases hget : mapGet items k
    · simp
    · rename_i it
      by_cases hc : 0 < it.expiration ∧ it.expiration < now <;> simp [hc]
  case file =>
    simp only [hasAux]
    cases hget : mapGet fs k
    · simp
    · rename_i fi
      by_cases hc : 0 < exp ∧ exp + fi.modTime < now <;> simp [hc]
  case redis =>
    simp only [hasAux]
    cases hget : remoteGet rem k now <;> simp [hget]
  case memcache =>
    simp only [hasAux]
    cases hget : remoteGet rem k now <;> simp [hget]

theorem sweepFold_preserve (ks : List String) (s : CacheState) (now : Int) :
    (ks.foldl (fun s j => (hasAux s now j).1) s).cacheType = s.cacheType
    ∧ (ks.foldl (fun s j => (hasAux s now j).1) s).cleaner = s.cleaner
    ∧ (ks.foldl (fun s j => (hasAux s now j).1) s).expiration = s.expiration := by
  induction ks generalizing s with
  | nil => exact ⟨rfl, rfl, rfl⟩
  | cons a ks ih =>
    rw [List.foldl_cons]
    obtain ⟨h1, h2, h3⟩ := ih (hasAux s now a).1
    obtain ⟨g1, g2, g3⟩ := hasAux_fst_preserve s now a
    exact ⟨h1.trans g1, h2.trans g2, h3.trans g3⟩

theorem sweepFold_memory (ks : List String) (s : CacheState) (now : Int) (k : String)
    (hty : s.cacheType = CacheType.memory) :
    mapGet ((ks.foldl (fun s j => (hasAux s now j).1) s).items) k =
      if k ∈ ks ∧ staleMemAt s.items now k = true then none else mapGet s.items k := by
  induction ks generalizing s with
  | nil => simp
  | cons a ks ih =>
    rw [List.foldl_cons]
    have hfst := hasAux_fst_memory s now a hty
    have hty1 : (hasAux s now a).1.cacheType = CacheType.memory := by
      rw [hfst]; exact hty
    have hitems : (hasAux s now a).1.items =
        if staleMemAt s.items now a = true then mapDel s.items a else s.items := by
      rw [hfst]
    rw [ih (hasAux s now a).1 hty1]
    by_cases hsa : staleMemAt s.items now a = true
    · rw [hitems, if_pos hsa]
      by_cases hak : a = k
      · subst hak
        have hg : mapGet (mapDel s.items a) a = none := by simp [mapGet_mapDel]
        have hst : staleMemAt (mapDel s.items a) now a = false := by
          simp [staleMemAt, hg]
        simp [hst, hg, hsa]
      · have hg : mapGet (mapDel s.items a) k = mapGet s.items k := by
          simp [mapGet_mapDel, hak]
        have hst := staleMemAt_congr (mapDel s.items a) s.items now k hg
        have hka : ¬ k = a := fun h => hak h.symm
        simp only [hst, hg, List.mem_cons]
        simp [hka]
    · rw [hitems, if_neg hsa]
      have hsa0 : staleMemAt s.items now a = false := by
        cases h : staleMemAt s.items now a
        · rfl
        · exact absurd h hsa
      by_cases hak : a = k
      · subst hak
        simp [hsa0]
      · have hka : ¬ k = a := fun h => hak h.symm
        simp [List.mem_cons, hka]

theorem sweepFold_file (ks : List String) (s : CacheState) (now : Int) (k : String)
    (hty : s.cacheType = CacheType.file) :
    mapGet ((ks.foldl (fun s j => (hasAux s now j).1) s).fileSys) k =
      if k ∈ ks ∧ staleFileAt s.expiration s.fileSys now k = true then none
      else mapGet s.fileSys k := by
  induction ks generalizing s with
  | nil => simp
  | cons a ks ih =>
    rw [List.foldl_cons]
    have hfst := hasAux_fst_file s now a hty
    have hty1 : (hasAux s now a).1.cacheType = CacheType.file := by
      rw [hfst]; exact hty
    have hexp : (hasAux s now a).1.expiration = s.expiration := by
      rw [hfst]
    have hfsys : (hasAux s now a).1.fileSys =
        if staleFileAt s.expiration s.fileSys now a = true then mapDel s.fileSys a
        else s.fileSys := by
      rw [hfst]
    rw [ih (hasAux s now a).1 hty1, hexp]
    by_cases hsa : staleFileAt s.expiration s.fileSys now a = true
    · rw [hfsys, if_pos hsa]
      by_cases hak : a = k
      · subst hak
        have hg : mapGet (mapDel s.fileSys a) a = none := by simp [mapGet_mapDel]
        have hst : staleFileAt s.expiration (mapDel s.fileSys a) now a = false := by
          simp [staleFileAt, hg]
        simp [hst, hg, hsa]
      · have hg : mapGet (mapDel s.fileSys a) k = mapGet s.fileSys k := by
          simp [mapGet_mapDel, hak]
        have hst := staleFileAt_congr s.expiration (mapDel s.fileSys a) s.fileSys now k hg
        have hka : ¬ k = a := fun h => hak h.symm
        simp only [hst, hg, List.mem_cons]
        simp [hka]
    · rw [hfsys, if_neg hsa]
      have hsa0 : staleFileAt s.expiration s.fileSys now a = false := by
        cases h : staleFileAt s.expiration s.fileSys now a
        · rfl
        · exact absurd h hsa
      by_cases hak : a = k
      · subst hak
        simp [hsa0]
      · have hka : ¬ k = a := fun h => hak h.symm
        simp [List.mem_cons, hka]

theorem sweeperArmed_congr (a b : CacheState) (h1 : a.cacheType = b.cacheType)
    (h2 : a.cleaner = b.cleaner) : sweeperArmed a = sweeperArmed b := by
  simp only [sweeperArmed, h1, h2]

/-- C8: the sweeper exists and is armed exactly for a strictly positive
TTL on the two local backends — never for the remote backends, whatever
the TTL; an armed sweep pass invokes the existence check on every known
key, so after a pass every stale memory entry (resp. every stale known
cache file) is evicted and nothing else changes, and the sweeper is
still armed afterwards (the timer is reset for another TTL interval;
real-time firing itself is outside the model). -/
theorem C8_sweeper_spec :
    (∀ e : Int, sweeperArmed (NewDefaultCache e) = decide (0 < e))
    ∧ (∀ (e : Int) (p : String), sweeperArmed (NewFileCache e p) = decide (0 < e))
    ∧ (∀ e : Int, sweeperArmed (NewRedisCache e) = false)
    ∧ (∀ e : Int, sweeperArmed (NewMemCache e) = false)
    ∧ (∀ (c : CacheState) (now : Int),
        (c.cacheType = CacheType.redis ∨ c.cacheType = CacheType.memcache) →
          sweeperArmed c = false ∧ sweepPass c now = c)
    ∧ (∀ (c : CacheState) (now : Int) (k : String),
        c.cacheType = CacheType.memory → sweeperArmed c = true →
          mapGet (sweepPass c now).items k =
            if staleMemAt c.items now k = true then none else mapGet c.items k)
    ∧ (∀ (c : CacheState) (now : Int) (k : String),
        c.cacheType = CacheType.file → sweeperArmed c = true →
          mapGet (sweepPass c now).fileSys k =
            if k ∈ c.cacheFiles ∧ staleFileAt c.expiration c.fileSys now k = true
            then none else mapGet c.fileSys k)
    ∧ (∀ (c : CacheState) (now : Int), sweeperArmed (sweepPass c now) = sweeperArmed c) := by
  refine ⟨fun e => ?_, fun e p => ?_, fun e => ?_, fun e => ?_,
    fun c now hty => ?_, fun c now k hty harm => ?_, fun c now k hty harm => ?_,
    fun c now => ?_⟩
  · by_cases h : 0 < e <;> simp [NewDefaultCache, sweeperArmed, defaultExpiration, h]
  · by_cases h : 0 < e <;> simp [NewFileCache, sweeperArmed, defaultExpiration, h]
  · simp [NewRedisCache, sweeperArmed]
  · simp [NewMemCache, sweeperArmed]
  · have harm : sweeperArmed c = false := by
      rcases hty with h | h <;> simp [sweeperArmed, h]
    refine ⟨harm, ?_⟩
    simp [sweepPass, harm]
  · obtain ⟨ty, exp, items, fp, fs, cf, rem, cl⟩ := c
    simp only at hty
    subst hty
    simp only [sweepPass, harm, if_true]
    rw [sweepFold_memory (items.map Prod.fst) _ now k rfl]
    by_cases hst : staleMemAt items now k = true
    · have hker : mapGet items k ≠ none := by
        intro hnone
        simp [staleMemAt, hnone] at hst
      obtain ⟨it, hit⟩ := Option.ne_none_iff_exists'.mp hker
      have hmem : k ∈ items.map Prod.fst := mapGet_some_mem_keys items k it hit
      simp [hst, hmem]
    · simp [hst]
  · obtain ⟨ty, exp, items, fp, fs, cf, rem, cl⟩ := c
    simp only at hty
    subst hty
    simp only [sweepPass, harm, if_true]
    rw [sweepFold_file cf _ now k rfl]
  · by_cases harm : sweeperArmed c = true
    · rw [sweepPass, if_pos harm]
      cases hty : c.cacheType
      · obtain ⟨h1, h2, _⟩ := sweepFold_preserve (c.items.map Prod.fst) c now
        exact sweeperArmed_congr _ _ h1 h2
      · obtain ⟨h1, h2, _⟩ := sweepFold_preserve c.cacheFiles c now
        exact sweeperArmed_congr _ _ h1 h2
      · rfl
      · rfl
    · rw [sweepPass, if_neg harm]

theorem C8_witness :
    sweeperArmed (NewDefaultCache 5) = true
    ∧ sweeperArmed (NewRedisCache 5) = false
    ∧ mapGet (sweepPass (Set (NewDefaultCache 5) 1 "k" (some [2])).1 100).items "k" =
        none :=
  ⟨(C8_sweeper_spec.1 5).trans (by decide),
   C8_sweeper_spec.2.2.1 5,
   (C8_sweeper_spec.2.2.2.2.2.1 (Set (NewDefaultCache 5) 1 "k" (some [2])).1 100 "k"
      rfl (by decide)).trans (by decide)⟩

/-- C9: on the remote backends every store-level miss — including one
caused by store-side TTL expiry — surfaces as `notFound`; `Get` and
`Pull` never produce the `expired` error there, so that error is
observable only on the local backends. -/
theorem C9_remote_errors (c : CacheState) (now : Int) (k : String)
    (h : c.cacheType = CacheType.redis ∨ c.cacheType = CacheType.memcache) :
    (Get c now k).2 ≠ Except.error CacheError.expired
    ∧ (Pull c now k).2 ≠ Except.error CacheError.expired
    ∧ (∀ e, (Get c now k).2 = Except.error e → e = CacheError.notFound)
    ∧ (∀ e, (Pull c now k).2 = Except.error e → e = CacheError.notFound) := by
  obtain ⟨ty, exp, items, fp, fs, cf, rem, cl⟩ := c
  simp only at h
  have key : ∀ e, (Get ⟨ty, exp, items, fp, fs, cf, rem, cl⟩ now k).2 = Except.error e →
      e = CacheError.notFound := by
    intro e he
    rcases h with h | h <;> subst h <;>
      revert he <;>
      simp only [Get, getRedisCache, getMemCache] <;>
      cases hget : remoteGet rem k now <;>
      intro he <;> simp at he <;> exact he.symm
  have keyp : ∀ e, (Pull ⟨ty, exp, items, fp, fs, cf, rem, cl⟩ now k).2 = Except.error e →
      e = CacheError.notFound := by
    intro e he
    rcases h with h | h <;> subst h <;>
      revert he <;>
      simp only [Pull, getRedisCache, getMemCache] <;>
      cases hget : remoteGet rem k now <;>
      intro he <;> simp at he <;> try exact he.symm
  refine ⟨fun he => ?_, fun he => ?_, key, keyp⟩
  · have := key CacheError.expired he
    simp at this
  · have := keyp CacheError.expired he
    simp at this

theorem C9_witness :
    (Get (NewRedisCache 5) 3 "k").2 ≠ Except.error CacheError.expired :=
  (C9_remote_errors (NewRedisCache 5) 3 "k" (Or.inl rfl)).1

/-- C10: every constructor clamps a strictly negative TTL to zero, so
the constructed state is literally equal to the zero-TTL state — hence
observationally equal under every subsequent operation sequence (all
operations are functions of the state) — and no sweeper is created on
the local backends. -/
theorem C10_negative_ttl (e : Int) (p : String) (h : e < 0) :
    NewDefaultCache e = NewDefaultCache 0
    ∧ NewFileCache e p = NewFileCache 0 p
    ∧ NewRedisCache e = NewRedisCache 0
    ∧ NewMemCache e = NewMemCache 0
    ∧ (NewDefaultCache e).cleaner = false
    ∧ (NewFileCache e p).cleaner = false := by
  have h1 : e ≤ (0 : Int) := le_of_lt h
  have h2 : ¬ ((0 : Int) < e) := by omega
  refine ⟨?_, ?_, ?_, ?_, ?_, ?_⟩ <;>
    simp [NewDefaultCache, NewFileCache, NewRedisCache, NewMemCache,
      defaultExpiration, h1, h2]

theorem C10_witness : NewDefaultCache (-3) = NewDefaultCache 0 :=
  (C10_negative_ttl (-3) "d" (by decide)).1

end GoCache
